import Mathlib

/-!
Shallow embedding of `src/sample2_script/extract_meta_v3.12.py`:
the balanced-JSON scanner (`find_json_bytes`), the field classifier and
decode cascade inside `save_metadata_files`, and the entry-point dispatch.

Bytes are modelled as `Nat` (values 0..255), buffers as `List Nat`.
The standard-library decompressors (`gzip.decompress`, `zlib.decompress`,
zip-archive reading) are external collaborators and are taken as
parameters `gz zl zp : List Nat → Option (List Nat)` where `none` models
an exception (or, for zip, an empty name list).  `base64.b64decode`
(with `validate=False`) and strict UTF-8 encode/decode are modelled
faithfully after CPython's `binascii`/codec behaviour.
-/

set_option maxRecDepth 8000

namespace ExtractMeta

/-- Per-scan-attempt state of the balanced-object scanner, from the local
variables `depth`, `in_str`, `escape` of `find_json_bytes`
(lines 26-28).  `depth` is an `Int` because the source decrements it
unconditionally. -/
structure ScanState where
  depth : Int
  in_str : Bool
  escape : Bool

/-- One step of the scanner walk: the body of the inner `while` loop of
`find_json_bytes` (lines 36-53).  Returns the updated state and `true`
when the source would `return` (a `}` brought `depth` to zero). -/
def scanStep (s : ScanState) (ch : Nat) : ScanState × Bool :=
  if s.in_str then
    if s.escape then ({ s with escape := false }, false)
    else if ch = 92 then ({ s with escape := true }, false)
    else if ch = 34 then ({ s with in_str := false }, false)
    else (s, false)
  else
    if ch = 34 then ({ s with in_str := true }, false)
    else if ch = 123 then ({ s with depth := s.depth + 1 }, false)
    else if ch = 125 then
      ({ s with depth := s.depth - 1 }, s.depth - 1 = 0)
    else (s, false)

/-- The inner `while i < limit` loop of `find_json_bytes` walked over the
suffix of the buffer starting at the candidate `{`.  `lim` is the number
of bytes the walk may still inspect (`none` when `max_search_len` is
`None`, in which case the source sets `limit = len(data)`, i.e. the walk
may reach the end of the buffer).  Returns the offset, relative to the
candidate start, of the closing `}` of a balanced object, or `none`. -/
def scanWalk : Option Nat → ScanState → List Nat → Option Nat
  | _, _, [] => none
  | lim, s, ch :: rest =>
    if lim = some 0 then none
    else
      let (s2, ret) := scanStep s ch
      if ret then some 0
      else
        match scanWalk (lim.map (· - 1)) s2 rest with
        | some k => some (k + 1)
        | none => none

/-- Initial scan state at a candidate `{` (lines 26-28). -/
def initScan : ScanState := ⟨0, false, false⟩

/-- Helper for `data.find(b'\x7b', p)`: index of the first byte 123 in the
suffix, with `p` carried as the absolute offset of the suffix head. -/
def findBraceAux : List Nat → Nat → Option Nat
  | [], _ => none
  | b :: rest, p => if b = 123 then some p else findBraceAux rest (p + 1)

/-- `data.find(b'\x7b', p)`, as used on lines 24 and 57. -/
def findBrace (data : List Nat) (p : Nat) : Option Nat :=
  findBraceAux (data.drop p) p

/-- The outer candidate loop of `find_json_bytes` (lines 24-57), from
search position `p`: find the next `{`, walk from it, and on failure
retry from one past that candidate.  `fuel` only forces termination:
each iteration moves `p` past the previous candidate, so a fuel of
`data.length + 1` is never exhausted before `findBrace` fails. -/
def findJsonLoop (data : List Nat) (maxLen : Option Nat) : Nat → Nat → Option (List Nat)
  | 0, _ => none
  | fuel + 1, p =>
    match findBrace data p with
    | none => none
    | some start =>
      match scanWalk maxLen initScan (data.drop start) with
      | some k => some ((data.drop start).take (k + 1))
      | none => findJsonLoop data maxLen fuel (start + 1)

/-- `find_json_bytes(data, max_search_len)` (lines 16-59). -/
def find_json_bytes (data : List Nat) (maxLen : Option Nat) : Option (List Nat) :=
  findJsonLoop data maxLen (data.length + 1) 0

/-- ASCII bytes of a Lean string (used only to build concrete buffers). -/
def asciiBytes (s : String) : List Nat := s.toList.map Char.toNat

/-! ## base64 decoding (CPython `binascii.a2b_base64`, non-strict mode)

`base64.b64decode(s, validate=False)` (used on line 163) delegates to
`binascii.a2b_base64` with `strict_mode=False`: characters outside the
base64 alphabet are skipped, a `=` at quad position ≥ 2 that completes a
quad ends decoding successfully, and leftover quad positions at end of
input raise `binascii.Error`. -/

/-- The base64 digit table: value of an alphabet character, `none` for a
non-alphabet byte (which non-strict decoding skips). -/
def b64Digit (c : Nat) : Option Nat :=
  if 65 ≤ c ∧ c ≤ 90 then some (c - 65)
  else if 97 ≤ c ∧ c ≤ 122 then some (c - 71)
  else if 48 ≤ c ∧ c ≤ 57 then some (c + 4)
  else if c = 43 then some 62
  else if c = 47 then some 63
  else none

/-- The decode loop of `binascii.a2b_base64` (non-strict): state is the
quad position, the pending bits, the count of pending pad characters and
the reversed output accumulator. -/
def a2bLoop : List Nat → Nat → Nat → Nat → List Nat → Except String (List Nat)
  | [], quadPos, _, _, acc =>
    if quadPos = 0 then .ok acc.reverse
    else if quadPos = 1 then .error "leftover data character"
    else .error "invalid padding"
  | c :: rest, quadPos, leftchar, pads, acc =>
    if c = 61 then
      if 2 ≤ quadPos then
        if 4 ≤ quadPos + (pads + 1) then .ok acc.reverse
        else a2bLoop rest quadPos leftchar (pads + 1) acc
      else a2bLoop rest quadPos leftchar pads acc
    else
      match b64Digit c with
      | none => a2bLoop rest quadPos leftchar pads acc
      | some v =>
        match quadPos with
        | 0 => a2bLoop rest 1 v 0 acc
        | 1 => a2bLoop rest 2 (v % 16) 0 ((leftchar * 4 + v / 16) :: acc)
        | 2 => a2bLoop rest 3 (v % 4) 0 ((leftchar * 16 + v / 4) :: acc)
        | _ => a2bLoop rest 0 0 0 ((leftchar * 64 + v) :: acc)

/-- `base64.b64decode(bs, validate=False)`; `.error` models the raised
`binascii.Error`. -/
def b64decode (bs : List Nat) : Except String (List Nat) :=
  a2bLoop bs 0 0 0 []

/-! ## UTF-8 (CPython strict codec) -/

/-- Is `b` a UTF-8 continuation byte (`0x80..0xBF`)? -/
def utf8Cont (b : Nat) : Bool := 128 ≤ b && b ≤ 191

/-- Strict UTF-8 decoding of a byte list into code points, rejecting
overlong forms, surrogates and values above `0x10FFFF`, as CPython's
`bytes.decode('utf-8')` does.  Models the strict decodes on lines 211
and 229.  The `fuel` argument only makes the recursion structural; any
`fuel ≥` the list length gives the decoder's value. -/
def utf8DecodeAux : Nat → List Nat → Option (List Nat)
  | _, [] => some []
  | 0, _ :: _ => none
  | fuel + 1, b :: rest =>
    if b < 128 then (utf8DecodeAux fuel rest).map (b :: ·)
    else if 194 ≤ b ∧ b ≤ 223 then
      match rest with
      | b2 :: rest2 =>
        if utf8Cont b2 then (utf8DecodeAux fuel rest2).map (((b - 192) * 64 + (b2 - 128)) :: ·)
        else none
      | [] => none
    else if 224 ≤ b ∧ b ≤ 239 then
      match rest with
      | b2 :: b3 :: rest3 =>
        if (if b = 224 then 160 ≤ b2 && b2 ≤ 191
            else if b = 237 then 128 ≤ b2 && b2 ≤ 159
            else utf8Cont b2) && utf8Cont b3 then
          (utf8DecodeAux fuel rest3).map
            (((b - 224) * 4096 + (b2 - 128) * 64 + (b3 - 128)) :: ·)
        else none
      | _ => none
    else if 240 ≤ b ∧ b ≤ 244 then
      match rest with
      | b2 :: b3 :: b4 :: rest4 =>
        if (if b = 240 then 144 ≤ b2 && b2 ≤ 191
            else if b = 244 then 128 ≤ b2 && b2 ≤ 143
            else utf8Cont b2) && utf8Cont b3 && utf8Cont b4 then
          (utf8DecodeAux fuel rest4).map
            (((b - 240) * 262144 + (b2 - 128) * 4096 + (b3 - 128) * 64 + (b4 - 128)) :: ·)
        else none
      | _ => none
    else none

/-- Strict UTF-8 decode to code points. -/
def utf8DecodeNats (bs : List Nat) : Option (List Nat) :=
  utf8DecodeAux bs.length bs

/-- Strict UTF-8 decode to a string (`bytes.decode('utf-8')`). -/
def utf8Decode (bs : List Nat) : Option String :=
  (utf8DecodeNats bs).map (fun cs => String.mk (cs.map Char.ofNat))

/-- UTF-8 encoding of one code point. -/
def utf8Encode1 (c : Nat) : List Nat :=
  if c < 128 then [c]
  else if c < 2048 then [192 + c / 64, 128 + c % 64]
  else if c < 65536 then [224 + c / 4096, 128 + c / 64 % 64, 128 + c % 64]
  else [240 + c / 262144, 128 + c / 4096 % 64, 128 + c / 64 % 64, 128 + c % 64]

/-- `str.encode('utf-8')` (line 163 encodes the field value before
base64-decoding it). -/
def utf8Encode (s : String) : List Nat :=
  (s.toList.map (fun c => utf8Encode1 c.toNat)).flatten

/-! ## Metadata values, field classification, decode cascade, writer -/

mutual
/-- Tagged variant for the values `json.loads` can put in the top-level
metadata mapping (numbers restricted to integers, which is all the
claims exercise).  Sequences and nested mappings are mutual inductives
rather than `List`-nested ones so that equality is decidable by
structural recursion. -/
inductive JsonValue where
  | null
  | bool (b : Bool)
  | num (n : Int)
  | str (s : String)
  | arr (xs : JsonArr)
  | obj (fields : JsonObj)
deriving DecidableEq

/-- A JSON array value. -/
inductive JsonArr where
  | nil
  | cons (v : JsonValue) (rest : JsonArr)
deriving DecidableEq

/-- A JSON object value (ordered key/value pairs). -/
inductive JsonObj where
  | nil
  | cons (k : String) (v : JsonValue) (rest : JsonObj)
deriving DecidableEq
end

/-- The regex `^[A-Za-z0-9+/=\n\r]+$` of line 150 applied with
`re.match` to the whole string: nonempty, every character in the base64
alphabet plus `=` and the line-break characters. -/
def b64match (s : String) : Bool :=
  !s.toList.isEmpty && s.toList.all (fun c =>
    ('A' ≤ c && c ≤ 'Z') || ('a' ≤ c && c ≤ 'z') || ('0' ≤ c && c ≤ '9') ||
    c == '+' || c == '/' || c == '=' || c == '\n' || c == '\r')

/-- The binary-candidate test of line 160:
`isinstance(val, str) and len(val) > 100 and b64_re.match(val)`. -/
def is_binary_candidate (v : JsonValue) : Bool :=
  match v with
  | .str s => decide (100 < s.length) && b64match s
  | _ => false

/-- Which decompression branch of `try_decompress` produced the bytes. -/
inductive ZFmt where
  | gzip
  | zlib
  | zip
deriving DecidableEq

/-- `try_decompress` (lines 175-204), with the three standard-library
decompressors as parameters (`none` models a raised exception, or for
`zp` also an empty archive name list).  The signature checks gate each
attempt; a failed attempt falls through to the next check; no signature
match (or all gated attempts failing) yields `none`.  The `ZFmt`
component only records which branch returned. -/
def try_decompress (gz zl zp : List Nat → Option (List Nat)) (b : List Nat) :
    Option (List Nat × ZFmt) :=
  if b.take 2 = [31, 139] then
    match gz b with
    | some r => some (r, .gzip)
    | none =>
      if 2 ≤ b.length ∧ b.head? = some 120 then
        match zl b with
        | some r => some (r, .zlib)
        | none =>
          if b.take 4 = [80, 75, 3, 4] then (zp b).map (·, .zip) else none
      else if b.take 4 = [80, 75, 3, 4] then (zp b).map (·, .zip) else none
  else
    if 2 ≤ b.length ∧ b.head? = some 120 then
      match zl b with
      | some r => some (r, .zlib)
      | none =>
        if b.take 4 = [80, 75, 3, 4] then (zp b).map (·, .zip) else none
    else if b.take 4 = [80, 75, 3, 4] then (zp b).map (·, .zip) else none

/-- Contents of one output file: raw bytes (`'wb'` writes) or text
written with UTF-8 encoding (`'w', encoding='utf-8'` writes). -/
inductive Artifact where
  | bin (bytes : List Nat)
  | text (s : String)
  | record (fields : List (String × JsonValue))
deriving DecidableEq

/-- What `save_metadata_files` does with one `(key, val)` pair:
write a file, keep the pair for `metadata.json`, or drop it. -/
inductive FieldOut where
  | file (path : String) (art : Artifact)
  | keep
  | skip
deriving DecidableEq

/-- `key.endswith('_xml')` (lines 254-255), computed on code points. -/
def endsWithXml (k : String) : Bool :=
  k.toList.reverse.take 4 == ['l', 'm', 'x', '_']

/-- The long-text branch of lines 254-260: a string value is written as
`<key>.xml` / `<key>.txt` when the key ends in `_xml`, the value has a
newline, or the value is longer than 200 characters; otherwise the pair
is kept for `metadata.json` (line 263). -/
def textRoute (key s : String) : FieldOut :=
  if endsWithXml key || s.toList.contains '\n' || decide (200 < s.length) then
    .file (key ++ "." ++
        (if endsWithXml key || key == "airframe_xml" || key == "parameter_xml"
         then "xml" else "txt"))
      (.text s)
  else .keep

/-- The body of the `for key, val in metadata.items()` loop of
`save_metadata_files` (lines 155-263). -/
def processField (gz zl zp : List Nat → Option (List Nat)) (key : String)
    (val : JsonValue) : FieldOut :=
  match val with
  | .null => .skip
  | .str s =>
    if is_binary_candidate (.str s) then
      match b64decode (utf8Encode s) with
      | .ok decoded =>
        if key == "image" then .file "firmware.bin" (.bin decoded)
        else if key == "airframe_xml" || key == "parameter_xml" then
          match try_decompress gz zl zp decoded with
          | some (d, _) =>
            match utf8Decode d with
            | some t => .file (key ++ ".xml") (.text t)
            | none => .file (key ++ ".bin") (.bin d)
          | none =>
            match utf8Decode decoded with
            | some t => .file (key ++ ".xml") (.text t)
            | none => .file (key ++ ".bin") (.bin decoded)
        else .file (key ++ ".bin") (.bin decoded)
      | .error _ => textRoute key s
    else textRoute key s
  | _ => .keep

/-- `save_metadata_files(metadata, output_dir)` (lines 140-269) as the
pair of (files written for individual fields, in field order) and (the
`remaining` record dumped to `metadata.json`). -/
def save_metadata_files (gz zl zp : List Nat → Option (List Nat))
    (metadata : List (String × JsonValue)) :
    List (String × Artifact) × List (String × JsonValue) :=
  (metadata.filterMap (fun kv =>
      match processField gz zl zp kv.1 kv.2 with
      | .file p a => some (p, a)
      | _ => none),
   metadata.filter (fun kv =>
      match processField gz zl zp kv.1 kv.2 with
      | .keep => true
      | _ => false))

/-- All writes of one run, in order: the per-field files followed by the
final `metadata.json` dump (lines 266-268). -/
def runManifest (gz zl zp : List Nat → Option (List Nat))
    (metadata : List (String × JsonValue)) : List (String × Artifact) :=
  (save_metadata_files gz zl zp metadata).1 ++
    [("metadata.json", .record (save_metadata_files gz zl zp metadata).2)]

/-- The entry-point dispatch (lines 280-282): `save_metadata_files` runs
only when `quick_extract_tags` returned a truthy value, i.e. a parsed
mapping that is not empty; `none` models "no artifacts written". -/
def main_run (gz zl zp : List Nat → Option (List Nat))
    (parsed : Option (List (String × JsonValue))) :
    Option (List (String × Artifact) × List (String × JsonValue)) :=
  match parsed with
  | some m => if m.isEmpty then none else some (save_metadata_files gz zl zp m)
  | none => none

/-! ## A filesystem model for write idempotence -/

/-- A destination directory as a partial map from file name to
contents. -/
abbrev FS : Type := String → Option Artifact

/-- One `open(..., 'w'/'wb')` + write: overwrites whatever was there. -/
def writeFile (fs : FS) (p : String) (a : Artifact) : FS :=
  fun q => if q = p then some a else fs q

/-- Perform a list of writes in order. -/
def runWrites (fs : FS) : List (String × Artifact) → FS
  | [] => fs
  | (p, a) :: rest => runWrites (writeFile fs p a) rest

/-! ## The cascade result abstraction -/

/-- Discovered-format tag of a CascadeResult. -/
inductive CFmt where
  | base64
  | b64gzip
  | b64zlib
  | b64zip
deriving DecidableEq

/-- The Decode Cascade applied to one binary-candidate string value:
the base64 decode of line 163 followed by `try_decompress` (line 206).
`none` models a base64 decode failure (the field is then not treated as
binary at all); otherwise the final bytes are the first successful
decompression's output, or the raw decoded bytes, with the tag recording
which layering was discovered. -/
def cascade (gz zl zp : List Nat → Option (List Nat)) (s : String) :
    Option (List Nat × CFmt) :=
  match b64decode (utf8Encode s) with
  | .error _ => none
  | .ok c =>
    match try_decompress gz zl zp c with
    | some (d, .gzip) => some (d, .b64gzip)
    | some (d, .zlib) => some (d, .b64zlib)
    | some (d, .zip) => some (d, .b64zip)
    | none => some (c, .base64)

/-! ## Concrete data used by the counterexamples and witnesses -/

/-- Decompressor that always raises (models e.g. `gzip.decompress` on
bytes that are not a valid stream). -/
def noDecomp : List Nat → Option (List Nat) := fun _ => none

/-- Decompressor succeeding on every input with the bytes of `"HELLO"`
(an adversarially cooperative stand-in showing a decompressor was never
consulted). -/
def anyToHello : List Nat → Option (List Nat) := fun _ => some (asciiBytes "HELLO")

/-- The bytes of `'{"a":1,"b":{"c":2}}'`. -/
def objBytes : List Nat :=
  [123, 34, 97, 34, 58, 49, 44, 34, 98, 34, 58, 123, 34, 99, 34, 58, 50, 125, 125]

/-- The bytes of `'{"a":"va\"lue"}'` (backslash-escaped quote inside the
string value). -/
def escBuf : List Nat :=
  [123, 34, 97, 34, 58, 34, 118, 97, 92, 34, 108, 117, 101, 34, 125]

/-- A 101-character pure-base64-alphabet string whose base64 decode
raises (101 data characters is 1 more than a multiple of 4). -/
def strA101 : String := String.mk (List.replicate 101 'A')

/-- `base64.b64encode(b"BINARYDATA")`, 16 characters. -/
def b64Short : String := "QklOQVJZREFUQQ=="

/-- `base64.b64encode(b"BINARYDATA" * 11)`, 148 characters. -/
def b64Long : String :=
  "QklOQVJZREFUQUJJTkFSWURBVEFCSU5BUllEQVRBQklOQVJZREFUQUJJTkFSWURBVEFCSU5BUllEQVRBQklOQVJZREFUQUJJTkFSWURBVEFCSU5BUllEQVRBQklOQVJZREFUQUJJTkFSWURBVEE="

/-- The bytes of `b"BINARYDATA" * 11`. -/
def payload11 : List Nat := (List.replicate 11 (asciiBytes "BINARYDATA")).flatten

/-- `"H4sI" * 26`: a 104-character base64 string whose decode starts with
the gzip signature. -/
def sGzip : String :=
  "H4sIH4sIH4sIH4sIH4sIH4sIH4sIH4sIH4sIH4sIH4sIH4sIH4sIH4sIH4sIH4sIH4sIH4sIH4sIH4sIH4sIH4sIH4sIH4sIH4sIH4sI"

/-- The base64 decode of `sGzip`: `b"\x1f\x8b\x08" * 26`. -/
def dGzip : List Nat := (List.replicate 26 [31, 139, 8]).flatten

/-- A gzip decompressor defined at exactly one stream (witness data). -/
def gzW : List Nat → Option (List Nat) :=
  fun b => if b = [31, 139, 8] then some (asciiBytes "HELLO") else none

/-- A zlib decompressor defined at exactly one stream (witness data). -/
def zlW : List Nat → Option (List Nat) :=
  fun b => if b = [120, 156, 1] then some (asciiBytes "HELLO") else none

/-- A zip reader defined at exactly one archive (witness data). -/
def zpW : List Nat → Option (List Nat) :=
  fun b => if b = [80, 75, 3, 4] then some (asciiBytes "HELLO") else none

/-! ## Helper lemmas -/

theorem listDropAppend {α : Type} (l1 l2 : List α) : (l1 ++ l2).drop l1.length = l2 := by
  induction l1 with
  | nil => simp
  | cons a t ih => simp [ih]

theorem listTakeAppend {α : Type} (l1 l2 : List α) : (l1 ++ l2).take l1.length = l1 := by
  induction l1 with
  | nil => simp
  | cons a t ih => simp [ih]

theorem findNone_append {α : Type} (f : α → Bool) {l1 : List α} (l2 : List α)
    (h : l1.find? f = none) : (l1 ++ l2).find? f = l2.find? f := by
  induction l1 with
  | nil => simp
  | cons a t ih =>
    simp only [List.cons_append, List.find?_cons] at h ⊢
    cases hf : f a with
    | true => simp [hf] at h
    | false =>
      simp only [hf] at h ⊢
      exact ih h

theorem findSome_append {α : Type} (f : α → Bool) {l1 : List α} {x : α} (l2 : List α)
    (h : l1.find? f = some x) : (l1 ++ l2).find? f = some x := by
  induction l1 with
  | nil => simp at h
  | cons a t ih =>
    simp only [List.cons_append, List.find?_cons] at h ⊢
    cases hf : f a with
    | true => simp [hf] at h ⊢; exact h
    | false =>
      simp only [hf] at h ⊢
      exact ih h

theorem runWrites_lookup (l : List (String × Artifact)) : ∀ (fs : FS) (q : String),
    runWrites fs l q =
      match l.reverse.find? (fun pa => pa.1 == q) with
      | some pa => some pa.2
      | none => fs q := by
  induction l with
  | nil => intro fs q; simp [runWrites]
  | cons pa rest ih =>
    intro fs q
    obtain ⟨p, a⟩ := pa
    rw [List.reverse_cons]
    rw [show runWrites fs ((p, a) :: rest) = runWrites (writeFile fs p a) rest from rfl]
    rw [ih (writeFile fs p a) q]
    cases hfind : rest.reverse.find? (fun pa => pa.1 == q) with
    | some x => rw [findSome_append _ _ hfind]
    | none =>
      rw [findNone_append _ _ hfind]
      by_cases hpq : p = q
      · subst hpq
        simp [List.find?_cons, writeFile]
      · have : ((p, a).1 == q) = false := by simpa using hpq
        simp [List.find?_cons, this, writeFile, hpq]
        intro h
        exact absurd h.symm hpq

/-! ## Claim theorems -/

/-- C8: a top-level field is classified binary-candidate iff its value is
a string of length exceeding 100 whose every character is in the base64
alphabet (`A–Z a–z 0–9 + / =`) plus line-break whitespace (`\n`, `\r`);
a 300-character base64-alphabet string is binary-candidate, an
otherwise-identical 50-character one is not. -/
theorem binary_candidate_iff :
    (∀ v : JsonValue, is_binary_candidate v = true ↔
      ∃ s : String, v = .str s ∧ 100 < s.length ∧
        ∀ c ∈ s.toList,
          ('A' ≤ c ∧ c ≤ 'Z') ∨ ('a' ≤ c ∧ c ≤ 'z') ∨ ('0' ≤ c ∧ c ≤ '9') ∨
          c = '+' ∨ c = '/' ∨ c = '=' ∨ c = '\n' ∨ c = '\r') ∧
    is_binary_candidate (.str (String.mk (List.replicate 300 'A'))) = true ∧
    is_binary_candidate (.str (String.mk (List.replicate 50 'A'))) = false := by
  refine ⟨?_, by decide, by decide⟩
  intro v
  cases v with
  | str s =>
    simp only [is_binary_candidate, b64match, Bool.and_eq_true, decide_eq_true_eq,
      List.all_eq_true, Bool.not_eq_true', Bool.or_eq_true, beq_iff_eq]
    constructor
    · rintro ⟨hlen, _, hall⟩
      refine ⟨s, rfl, hlen, fun c hc => ?_⟩
      have := hall c hc
      simp only [decide_eq_true_eq] at this
      tauto
    · rintro ⟨s', heq, hlen, hall⟩
      cases heq
      refine ⟨hlen, ?_, fun c hc => ?_⟩
      · have hlt : s.length = s.toList.length := rfl
        cases htl : s.toList with
        | nil => rw [hlt, htl] at hlen; simp at hlen
        | cons a t => simp [htl]
      · have := hall c hc
        tauto
  | null => simp [is_binary_candidate]
  | bool b => simp [is_binary_candidate]
  | num n => simp [is_binary_candidate]
  | arr xs => simp [is_binary_candidate]
  | obj fields => simp [is_binary_candidate]

theorem findBraceAux_append {l1 : List Nat} (h : ∀ b ∈ l1, b ≠ 123) :
    ∀ (t : List Nat) (p : Nat), findBraceAux (l1 ++ 123 :: t) p = some (p + l1.length) := by
  induction l1 with
  | nil => intro t p; simp [findBraceAux]
  | cons b rest ih =>
    intro t p
    have hb : b ≠ 123 := h b (by simp)
    have hrest : ∀ x ∈ rest, x ≠ 123 := fun x hx => h x (by simp [hx])
    simp only [List.cons_append, findBraceAux, if_neg hb, List.append_eq]
    rw [ih hrest t (p + 1)]
    congr 1
    simp
    omega

theorem scanWalk_append {s : ScanState} {l1 : List Nat} {k : Nat}
    (h : scanWalk none s l1 = some k) (l2 : List Nat) :
    scanWalk none s (l1 ++ l2) = some k := by
  induction l1 generalizing s k with
  | nil => simp [scanWalk] at h
  | cons ch rest ih =>
    rw [List.cons_append]
    rw [show scanWalk none s (ch :: rest) =
          (if (none : Option Nat) = some 0 then none
           else
             if (scanStep s ch).2 then some 0
             else
               match scanWalk none (scanStep s ch).1 rest with
               | some k => some (k + 1)
               | none => none) from rfl] at h
    rw [show scanWalk none s (ch :: (rest ++ l2)) =
          (if (none : Option Nat) = some 0 then none
           else
             if (scanStep s ch).2 then some 0
             else
               match scanWalk none (scanStep s ch).1 (rest ++ l2) with
               | some k => some (k + 1)
               | none => none) from rfl]
    simp only [reduceCtorEq, if_false] at h ⊢
    cases hret : (scanStep s ch).2 with
    | true => simpa [hret] using h
    | false =>
      simp only [hret, if_false] at h ⊢
      cases hw : scanWalk none (scanStep s ch).1 rest with
      | none => rw [hw] at h; simp at h
      | some k' =>
        rw [hw] at h
        rw [ih hw]
        exact h

/-- C5 counterexample: with noise `"{}"` on both sides of
`'{"a":1,"b":{"c":2}}'`, the scanner returns the noise object `{}`,
not the inner slice, so the property does not hold for every pair of
noise byte strings. -/
theorem scanner_noise_with_brace :
    find_json_bytes (asciiBytes "\x7b\x7d" ++ objBytes ++ asciiBytes "\x7b\x7d") none
      = some (asciiBytes "\x7b\x7d") ∧
    asciiBytes "\x7b\x7d" ≠ objBytes := by
  exact ⟨by decide, by decide⟩

/-- C5 (amended): for every pair of noise byte strings such that the
leading noise contains no `{` byte, the Scanner on
`noise1 ++ '{"a":1,"b":{"c":2}}' ++ noise2` returns exactly the inner
slice. -/
theorem scanner_inner_object (n1 n2 : List Nat) (h : ∀ b ∈ n1, b ≠ 123) :
    find_json_bytes (n1 ++ objBytes ++ n2) none = some objBytes := by
  have hsplit : n1 ++ objBytes ++ n2 = n1 ++ (objBytes ++ n2) := by
    rw [List.append_assoc]
  have hb : findBrace (n1 ++ objBytes ++ n2) 0 = some n1.length := by
    unfold findBrace
    rw [List.drop_zero, hsplit]
    rw [show objBytes ++ n2 = 123 :: ((objBytes.drop 1) ++ n2) from rfl]
    simpa using findBraceAux_append h ((objBytes.drop 1) ++ n2) 0
  have hdrop : (n1 ++ objBytes ++ n2).drop n1.length = objBytes ++ n2 := by
    rw [hsplit]; exact listDropAppend n1 (objBytes ++ n2)
  have hwalkObj : scanWalk none initScan objBytes = some 18 := by decide
  have hwalk : scanWalk none initScan (objBytes ++ n2) = some 18 :=
    scanWalk_append hwalkObj n2
  have hlen : (n1 ++ objBytes ++ n2).length + 1 = ((n1 ++ objBytes ++ n2).length) + 1 := rfl
  unfold find_json_bytes
  rw [show findJsonLoop (n1 ++ objBytes ++ n2) none ((n1 ++ objBytes ++ n2).length + 1) 0 =
        (match findBrace (n1 ++ objBytes ++ n2) 0 with
         | none => none
         | some start =>
           match scanWalk none initScan ((n1 ++ objBytes ++ n2).drop start) with
           | some k => some (((n1 ++ objBytes ++ n2).drop start).take (k + 1))
           | none =>
             findJsonLoop (n1 ++ objBytes ++ n2) none ((n1 ++ objBytes ++ n2).length)
               (start + 1)) from rfl]
  rw [hb]
  simp only [hdrop, hwalk]
  have htake : (objBytes ++ n2).take 19 = objBytes := by
    have : objBytes.length = 19 := by decide
    rw [show (19 : Nat) = objBytes.length from this.symm]
    exact listTakeAppend objBytes n2
  rw [show (18 + 1 : Nat) = 19 from rfl, htake]

/-- C5 witness: concrete noise — the leading noise has no `{`, the
trailing noise may contain anything, including an unmatched `{`. -/
theorem scanner_inner_object_witness :
    find_json_bytes (asciiBytes "ns!" ++ objBytes ++ (123 :: asciiBytes "tail")) none
      = some objBytes :=
  scanner_inner_object (asciiBytes "ns!") (123 :: asciiBytes "tail") (by decide)

/-- C6: the ScanState invariant. For every state `s` well-formed in the
sense that a pending escape only occurs inside a string (true of every
state reachable from `initScan`):
(1) a step changes `depth` only outside string context;
(2) `in_str` toggles only on an unescaped double quote (byte 34);
(3) after a step, `escapePending` holds iff the consumed byte was an
    unescaped backslash (92) inside a string — so an escape set by a
    backslash is cleared after exactly one subsequent byte regardless of
    that byte's value;
(4) well-formedness is preserved by every step;
(5) a non-returning step keeps `depth` positive (so `depth` stays a
    non-negative integer throughout a walk from a candidate `{`, which
    starts by raising `depth` from 0 to 1);
and for the buffer `'{"a":"va\"lue"}'` the escaped quote ends neither
the string nor the object: the Scanner returns the whole object. -/
theorem scan_state_invariant :
    (∀ (s : ScanState) (ch : Nat),
        (scanStep s ch).1.depth ≠ s.depth → s.in_str = false) ∧
    (∀ (s : ScanState) (ch : Nat), (s.escape = true → s.in_str = true) →
        (scanStep s ch).1.in_str ≠ s.in_str → ch = 34 ∧ s.escape = false) ∧
    (∀ (s : ScanState) (ch : Nat), (s.escape = true → s.in_str = true) →
        (scanStep s ch).1.escape = (s.in_str && !s.escape && decide (ch = 92))) ∧
    (∀ (s : ScanState) (ch : Nat), (s.escape = true → s.in_str = true) →
        ((scanStep s ch).1.escape = true → (scanStep s ch).1.in_str = true)) ∧
    (∀ (s : ScanState) (ch : Nat), 1 ≤ s.depth →
        (scanStep s ch).2 = false → 1 ≤ (scanStep s ch).1.depth) ∧
    (scanStep initScan 123).1.depth = 1 ∧
    find_json_bytes escBuf none = some escBuf := by
  refine ⟨?_, ?_, ?_, ?_, ?_, by decide, by decide⟩
  · intro s ch
    unfold scanStep
    split_ifs <;> simp_all
  · intro s ch hwf
    unfold scanStep
    split_ifs <;> simp_all
  · intro s ch hwf
    unfold scanStep
    split_ifs <;> simp_all
  · intro s ch hwf
    unfold scanStep
    split_ifs <;> simp_all
  · intro s ch hd
    unfold scanStep
    split_ifs <;> simp_all <;> omega

/-- C6 witness: the invariant applied at concrete states and bytes — a
backslash inside a string sets the escape for the next byte, a string
toggle really was caused by an unescaped quote, and an ordinary byte at
depth 1 keeps the depth positive. -/
theorem scan_state_invariant_witness :
    (scanStep ⟨1, true, false⟩ 92).1.escape = (true && !false && decide ((92 : Nat) = 92)) ∧
    ((34 : Nat) = 34 ∧ (false : Bool) = false) ∧
    (1 : Int) ≤ (scanStep ⟨1, false, false⟩ 97).1.depth :=
  ⟨scan_state_invariant.2.2.1 ⟨1, true, false⟩ 92 (by decide),
   scan_state_invariant.2.1 ⟨1, true, false⟩ 34 (by decide) (by decide),
   scan_state_invariant.2.2.2.2.1 ⟨1, false, false⟩ 97 (by decide) (by decide)⟩

theorem take2_eq {l : List Nat} {a b : Nat} (h : l.take 2 = [a, b]) :
    ∃ t, l = a :: b :: t := by
  match l with
  | [] => simp at h
  | [x] => simp at h
  | x :: y :: t =>
    simp at h
    obtain ⟨h1, h2⟩ := h
    subst h1; subst h2
    exact ⟨t, rfl⟩

theorem take4_eq {l : List Nat} {a b c d : Nat} (h : l.take 4 = [a, b, c, d]) :
    ∃ t, l = a :: b :: c :: d :: t := by
  match l with
  | [] => simp at h
  | [x] => simp at h
  | [x, y] => simp at h
  | [x, y, z] => simp at h
  | x :: y :: z :: w :: t =>
    simp at h
    obtain ⟨h1, h2, h3, h4⟩ := h
    subst h1; subst h2; subst h3; subst h4
    exact ⟨t, rfl⟩

/-- C7: the Cascade undoes base64-then-compress layering.  If a string
base64-decodes to a byte blob carrying the gzip signature which the gzip
decompressor turns into `m`, the cascade yields `m` tagged
`base64+gzip`; likewise for a zlib-headed blob (tag `base64+zlib`) and
for a zip archive whose first entry is `m` (tag `base64+zip-entry`). -/
theorem cascade_roundtrip
    (gz zl zp : List Nat → Option (List Nat)) (m cg cz cp : List Nat)
    (s1 s2 s3 : String)
    (hg1 : b64decode (utf8Encode s1) = .ok cg)
    (hg2 : cg.take 2 = [31, 139])
    (hg3 : gz cg = some m)
    (hz1 : b64decode (utf8Encode s2) = .ok cz)
    (hz2 : cz.head? = some 120)
    (hz3 : 2 ≤ cz.length)
    (hz4 : zl cz = some m)
    (hp1 : b64decode (utf8Encode s3) = .ok cp)
    (hp2 : cp.take 4 = [80, 75, 3, 4])
    (hp3 : zp cp = some m) :
    cascade gz zl zp s1 = some (m, .b64gzip) ∧
    cascade gz zl zp s2 = some (m, .b64zlib) ∧
    cascade gz zl zp s3 = some (m, .b64zip) := by
  refine ⟨?_, ?_, ?_⟩
  · have htd : try_decompress gz zl zp cg = some (m, .gzip) := by
      unfold try_decompress
      rw [if_pos hg2, hg3]
    simp [cascade, hg1, htd]
  · have hcz : ∃ t, cz = 120 :: t := by
      cases cz with
      | nil => simp at hz2
      | cons x t => simp at hz2; exact ⟨t, by rw [hz2]⟩
    obtain ⟨t, rfl⟩ := hcz
    have htd : try_decompress gz zl zp (120 :: t) = some (m, .zlib) := by
      unfold try_decompress
      rw [if_neg (by simp), if_pos ⟨hz3, hz2⟩, hz4]
    simp [cascade, hz1, htd]
  · obtain ⟨t, rfl⟩ := take4_eq hp2
    have htd : try_decompress gz zl zp (80 :: 75 :: 3 :: 4 :: t) = some (m, .zip) := by
      unfold try_decompress
      rw [if_neg (by simp), if_neg (by simp), if_pos hp2, hp3]
      rfl
    simp [cascade, hp1, htd]

/-- C7 witness: concrete strings `"H4sI"`, `"eJwB"`, `"UEsDBA=="`
decoding to a gzip-signed, zlib-headed and zip-signed blob respectively,
with decompressors defined at exactly those blobs, round-trip to the
bytes of `"HELLO"` with the expected tags. -/
theorem cascade_roundtrip_witness :
    cascade gzW zlW zpW "H4sI" = some (asciiBytes "HELLO", .b64gzip) ∧
    cascade gzW zlW zpW "eJwB" = some (asciiBytes "HELLO", .b64zlib) ∧
    cascade gzW zlW zpW "UEsDBA==" = some (asciiBytes "HELLO", .b64zip) :=
  cascade_roundtrip gzW zlW zpW (asciiBytes "HELLO") [31, 139, 8] [120, 156, 1]
    [80, 75, 3, 4] "H4sI" "eJwB" "UEsDBA=="
    rfl (by decide) (by decide)
    rfl (by decide) (by decide) (by decide)
    rfl (by decide) (by decide)

/-- C1 counterexample: for the literal metadata object of the claim,
`base64("BINARYDATA")` is only 16 characters, below the 100-character
binary-candidate threshold, so the writer produces no `firmware.bin` at
all and the aggregate record keeps the `image` field. -/
theorem short_image_not_extracted :
    save_metadata_files noDecomp noDecomp noDecomp
      [("board_id", .num 9), ("image", .str b64Short), ("description", .str "x")]
      = ([], [("board_id", .num 9), ("image", .str b64Short), ("description", .str "x")]) ∧
    b64decode (utf8Encode b64Short) = .ok (asciiBytes "BINARYDATA") ∧
    b64Short.length = 16 :=
  ⟨by decide, rfl, by decide⟩

/-- C1 (amended): for a metadata object
`{"board_id": 9, "image": s, "description": "x"}` whose image value `s`
is actually classified binary-candidate (length over 100) and
base64-decodes to `payload`, the run writes exactly one field file,
`firmware.bin`, containing exactly `payload`, and the `metadata.json`
record is exactly `{"board_id": 9, "description": "x"}`. -/
theorem image_extraction_end_to_end (gz zl zp : List Nat → Option (List Nat))
    (s : String) (payload : List Nat)
    (hcand : is_binary_candidate (.str s) = true)
    (hdec : b64decode (utf8Encode s) = .ok payload) :
    save_metadata_files gz zl zp
      [("board_id", .num 9), ("image", .str s), ("description", .str "x")]
      = ([("firmware.bin", .bin payload)],
         [("board_id", .num 9), ("description", .str "x")]) := by
  have pf1 : processField gz zl zp "board_id" (.num 9) = .keep := rfl
  have pf2 : processField gz zl zp "image" (.str s) = .file "firmware.bin" (.bin payload) := by
    simp [processField, hcand, hdec]
  have pf3 : processField gz zl zp "description" (.str "x") = .keep := by
    have hc : is_binary_candidate (.str "x") = false := by decide
    have ht : textRoute "description" "x" = .keep := by decide
    simp [processField, hc, ht]
  simp [save_metadata_files, List.filterMap_cons, List.filter_cons, pf1, pf2, pf3]

/-- C1 witness: with the 148-character `base64(b"BINARYDATA" * 11)` as
the image value, the run writes `firmware.bin` with exactly those 110
bytes and aggregates the two scalars. -/
theorem image_extraction_end_to_end_witness :
    save_metadata_files noDecomp noDecomp noDecomp
      [("board_id", .num 9), ("image", .str b64Long), ("description", .str "x")]
      = ([("firmware.bin", .bin payload11)],
         [("board_id", .num 9), ("description", .str "x")]) :=
  image_extraction_end_to_end noDecomp noDecomp noDecomp b64Long payload11
    (by decide) rfl

/-- C2 counterexample: a binary-candidate field under the key `"data"`
whose decoded bytes open with the gzip signature is written raw:
even with decompressors that succeed on every input, the written
`data.bin` holds the undecompressed decode, so the cascade was not
attempted for this key. -/
theorem cascade_skipped_for_plain_key :
    is_binary_candidate (.str sGzip) = true ∧
    b64decode (utf8Encode sGzip) = .ok dGzip ∧
    dGzip.take 2 = [31, 139] ∧
    anyToHello dGzip = some (asciiBytes "HELLO") ∧
    (save_metadata_files anyToHello anyToHello anyToHello [("data", .str sGzip)]).1
      = [("data.bin", .bin dGzip)] ∧
    dGzip ≠ asciiBytes "HELLO" :=
  ⟨by decide, rfl, by decide, rfl, by decide, by decide⟩

/-- C2 (amended): the decode cascade runs only for the keys
`airframe_xml` and `parameter_xml`: for those, the written payload is
the `try_decompress` cascade output (gzip, then zlib, then zip, each
signature-gated and non-fatal) over the decoded bytes, as text when it
is UTF-8 and raw otherwise; the `image` key and every other key get the
raw decoded bytes with no decompression attempt. -/
theorem cascade_key_routing (gz zl zp : List Nat → Option (List Nat))
    (key s : String) (c : List Nat)
    (hcand : is_binary_candidate (.str s) = true)
    (hdec : b64decode (utf8Encode s) = .ok c) :
    ((key = "airframe_xml" ∨ key = "parameter_xml") →
      processField gz zl zp key (.str s) =
        (match (try_decompress gz zl zp c).map (·.1) with
         | some d =>
           (match utf8Decode d with
            | some t => .file (key ++ ".xml") (.text t)
            | none => .file (key ++ ".bin") (.bin d))
         | none =>
           (match utf8Decode c with
            | some t => .file (key ++ ".xml") (.text t)
            | none => .file (key ++ ".bin") (.bin c)))) ∧
    (key = "image" → processField gz zl zp key (.str s) = .file "firmware.bin" (.bin c)) ∧
    (key ≠ "image" → key ≠ "airframe_xml" → key ≠ "parameter_xml" →
      processField gz zl zp key (.str s) = .file (key ++ ".bin") (.bin c)) := by
  refine ⟨?_, ?_, ?_⟩
  · rintro (rfl | rfl) <;>
    · simp only [processField, hcand, if_true, hdec]
      cases htd : try_decompress gz zl zp c with
      | none => simp
      | some r => obtain ⟨d, f⟩ := r; simp
  · rintro rfl
    simp [processField, hcand, hdec]
  · intro h1 h2 h3
    have b1 : (key == "image") = false := by simpa using h1
    have b2 : (key == "airframe_xml") = false := by simpa using h2
    have b3 : (key == "parameter_xml") = false := by simpa using h3
    simp [processField, hcand, hdec, b1, b2, b3]

/-- C2 witness: the routing applied at the keys `airframe_xml` (cascade
consulted; all attempts fail here so the raw bytes are written as
binary), `image` (fixed filename, raw bytes) and `data` (raw bytes). -/
theorem cascade_key_routing_witness :
    processField noDecomp noDecomp noDecomp "airframe_xml" (.str sGzip)
      = .file ("airframe_xml" ++ ".bin") (.bin dGzip) ∧
    processField noDecomp noDecomp noDecomp "image" (.str sGzip)
      = .file "firmware.bin" (.bin dGzip) ∧
    processField noDecomp noDecomp noDecomp "data" (.str sGzip)
      = .file ("data" ++ ".bin") (.bin dGzip) := by
  have h1 := cascade_key_routing noDecomp noDecomp noDecomp "airframe_xml" sGzip dGzip
    (by decide) rfl
  have h2 := cascade_key_routing noDecomp noDecomp noDecomp "image" sGzip dGzip
    (by decide) rfl
  have h3 := cascade_key_routing noDecomp noDecomp noDecomp "data" sGzip dGzip
    (by decide) rfl
  refine ⟨?_, h2.2.1 rfl, h3.2.2 (by decide) (by decide) (by decide)⟩
  rw [h1.1 (Or.inl rfl)]
  decide

/-- C3 counterexample: a field whose value is `null` is dropped by the
writer (line 156-157 `continue`), not routed into the aggregate record:
for `{"x": null, "n": 5}` the written `metadata.json` record is
`{"n": 5}` only. -/
theorem null_field_dropped :
    save_metadata_files noDecomp noDecomp noDecomp [("x", .null), ("n", .num 5)]
      = ([], [("n", .num 5)]) := by
  decide

/-- C3 (amended): every top-level scalar-classified field — numbers,
booleans, short strings, arrays, nested objects — except fields whose
value is `null` (which are dropped entirely) is routed unchanged, under
its original key, into the aggregate record written as
`metadata.json`. -/
theorem scalar_fields_aggregated (gz zl zp : List Nat → Option (List Nat))
    (m : List (String × JsonValue)) (k : String) (v : JsonValue)
    (hmem : (k, v) ∈ m)
    (hnull : v ≠ .null)
    (hcand : is_binary_candidate v = false)
    (htext : ∀ s, v = .str s →
      (endsWithXml k || s.toList.contains '\n' || decide (200 < s.length)) = false) :
    (k, v) ∈ (save_metadata_files gz zl zp m).2 := by
  have hpf : processField gz zl zp k v = .keep := by
    cases v with
    | null => exact absurd rfl hnull
    | str s =>
      have ht := htext s rfl
      have htr : textRoute k s = .keep := by
        simp at ht
        simp [textRoute, ht]
      simp [processField, hcand, htr]
    | bool b => rfl
    | num n => rfl
    | arr xs => rfl
    | obj f => rfl
  apply List.mem_filter.mpr
  exact ⟨hmem, by simp [hpf]⟩

/-- C3 witness: a number, a boolean, a short string, an array and a
nested object all survive into the aggregate record. -/
theorem scalar_fields_aggregated_witness :
    ("n", JsonValue.num 7) ∈
      (save_metadata_files noDecomp noDecomp noDecomp
        [("n", .num 7), ("b", .bool true), ("s", .str "hi"),
         ("a", .arr (.cons (.num 1) .nil)), ("o", .obj (.cons "c" (.num 2) .nil))]).2 ∧
    ("o", JsonValue.obj (.cons "c" (.num 2) .nil)) ∈
      (save_metadata_files noDecomp noDecomp noDecomp
        [("n", .num 7), ("b", .bool true), ("s", .str "hi"),
         ("a", .arr (.cons (.num 1) .nil)), ("o", .obj (.cons "c" (.num 2) .nil))]).2 :=
  ⟨scalar_fields_aggregated noDecomp noDecomp noDecomp _ "n" (.num 7)
      (by simp) (by decide) (by decide) (fun s h => nomatch h),
   scalar_fields_aggregated noDecomp noDecomp noDecomp _ "o" (.obj (.cons "c" (.num 2) .nil))
      (by simp) (by decide) (by decide) (fun s h => nomatch h)⟩

/-- C4 counterexample: the 101-character all-`A` value passes the
binary-candidate check but its base64 decode raises; the field is not
written as a text file — it fails the long-text check (no `_xml` key,
no newline, length ≤ 200) and lands in the aggregate record instead,
while processing continues to the next field. -/
theorem b64_failure_short_field_aggregated :
    is_binary_candidate (.str strA101) = true ∧
    (b64decode (utf8Encode strA101)).isOk = false ∧
    save_metadata_files noDecomp noDecomp noDecomp
        [("k", .str strA101), ("n", .num 5)]
      = ([], [("k", .str strA101), ("n", .num 5)]) :=
  ⟨by decide, by decide, by decide⟩

/-- C4 (amended): a base64 decode failure is field-local and non-fatal:
the failing field falls back to the ordinary long-text routing (a text
file only when the key ends in `_xml`, the value contains a newline or
exceeds 200 characters; otherwise it goes to the aggregate record), and
every other field, before or after it, is processed exactly as it would
be on its own. -/
theorem b64_failure_field_local (gz zl zp : List Nat → Option (List Nat))
    (k s : String) (e : String)
    (hcand : is_binary_candidate (.str s) = true)
    (hdec : b64decode (utf8Encode s) = .error e) :
    processField gz zl zp k (.str s) = textRoute k s ∧
    ∀ (pre post : List (String × JsonValue)),
      (save_metadata_files gz zl zp (pre ++ (k, JsonValue.str s) :: post)).1
        = (save_metadata_files gz zl zp pre).1
          ++ (match textRoute k s with | .file p a => [(p, a)] | _ => [])
          ++ (save_metadata_files gz zl zp post).1 ∧
      (save_metadata_files gz zl zp (pre ++ (k, JsonValue.str s) :: post)).2
        = (save_metadata_files gz zl zp pre).2
          ++ (match textRoute k s with | .keep => [(k, JsonValue.str s)] | _ => [])
          ++ (save_metadata_files gz zl zp post).2 := by
  have hpf : processField gz zl zp k (.str s) = textRoute k s := by
    simp [processField, hcand, hdec]
  refine ⟨hpf, ?_⟩
  intro pre post
  constructor
  · simp only [save_metadata_files, List.filterMap_append, List.filterMap_cons, hpf]
    cases htr : textRoute k s with
    | file p a => simp
    | keep => simp
    | skip => simp
  · simp only [save_metadata_files, List.filter_append, List.filter_cons, hpf]
    cases htr : textRoute k s with
    | file p a => simp
    | keep => simp
    | skip => simp

/-- C4 witness: the failing 101-character field between two number
fields: the numbers are aggregated as usual, the failing field joins
them in the aggregate, and no file is written. -/
theorem b64_failure_field_local_witness :
    processField noDecomp noDecomp noDecomp "k" (.str strA101) = textRoute "k" strA101 ∧
    (save_metadata_files noDecomp noDecomp noDecomp
        ([("a", .num 1)] ++ ("k", JsonValue.str strA101) :: [("b", .num 2)])).1 = [] ∧
    (save_metadata_files noDecomp noDecomp noDecomp
        ([("a", .num 1)] ++ ("k", JsonValue.str strA101) :: [("b", .num 2)])).2
      = [("a", .num 1), ("k", .str strA101), ("b", .num 2)] := by
  have h := b64_failure_field_local noDecomp noDecomp noDecomp "k" strA101
    "leftover data character" (by decide) rfl
  refine ⟨h.1, ?_, ?_⟩
  · rw [(h.2 [("a", .num 1)] [("b", .num 2)]).1]
    decide
  · rw [(h.2 [("a", .num 1)] [("b", .num 2)]).2]
    decide

/-- C9: the pipeline is deterministic and its artifacts are byte-stable:
performing the run's writes (per-field files plus the final
`metadata.json`) a second time over the directory state left by the
first run changes no file, so two runs on the same input produce
byte-identical artifacts. -/
theorem pipeline_idempotent (gz zl zp : List Nat → Option (List Nat))
    (m : List (String × JsonValue)) (fs : FS) :
    runWrites (runWrites fs (runManifest gz zl zp m)) (runManifest gz zl zp m)
      = runWrites fs (runManifest gz zl zp m) := by
  funext q
  rw [runWrites_lookup, runWrites_lookup]
  cases hfind : (runManifest gz zl zp m).reverse.find? (fun pa => pa.1 == q) with
  | some x => rfl
  | none => rfl

/-- C10: when the parsed metadata mapping is the empty object `{}`, the
entry point treats it exactly like a failed extraction: the writer stage
never runs and no artifact (no output directory, no `metadata.json`) is
produced.  The scanner does extract `{}` from such a buffer. -/
theorem empty_object_no_artifacts (gz zl zp : List Nat → Option (List Nat)) :
    main_run gz zl zp (some []) = none ∧
    main_run gz zl zp none = none ∧
    find_json_bytes (asciiBytes "xx\x7b\x7dyy") none = some (asciiBytes "\x7b\x7d") := by
  exact ⟨rfl, rfl, by decide⟩

end ExtractMeta
